import Mathlib

/-!
# dylibbundler: dependency graph, staging and reference fixing

A shallow embedding of `main.go`.  The file system, the `otool` subprocess and
the `cp` / `chmod` / `install_name_tool` subprocesses are parameters; the Go
functions are state-passing Lean functions over them.  Recursion that Go does
not bound (symbolic-link following, the recursive graph build) carries a fuel
argument, and running out of fuel is a result of its own (`Res.timeout`).
-/

namespace Dylibbundler

/-! ## Go library functions used by the program (`strings`, `path/filepath` on Unix) -/

/-- Go `strings.HasPrefix`. -/
def HasPrefix (s pre : String) : Bool := pre.data.isPrefixOf s.data

/-- Go `strings.HasSuffix`. -/
def HasSuffix (s suf : String) : Bool := suf.data.isSuffixOf s.data

/-- Split a path at every `/` (the elements between separators, empty ones included). -/
def splitSlash : List Char → List (List Char)
  | [] => [[]]
  | c :: cs =>
    if c = '/' then [] :: splitSlash cs
    else
      match splitSlash cs with
      | [] => [[c]]
      | h :: t => (c :: h) :: t

/-- The element loop of Go `filepath.Clean`: `stk` is the output so far, last element
first.  Empty and `.` elements are dropped; `..` removes the preceding real element,
is dropped at the root of a rooted path, and is kept at the start of a relative one. -/
def cleanElems (rooted : Bool) : List (List Char) → List (List Char) → List (List Char)
  | stk, [] => stk
  | stk, e :: es =>
    if e = [] ∨ e = ['.'] then cleanElems rooted stk es
    else if e = ['.', '.'] then
      match stk with
      | [] => if rooted then cleanElems rooted [] es else cleanElems rooted [e] es
      | top :: below =>
        if top = ['.', '.'] then cleanElems rooted (e :: stk) es
        else cleanElems rooted below es
    else cleanElems rooted (e :: stk) es

/-- Go `filepath.Clean` on a list of characters. -/
def cleanChars (path : List Char) : List Char :=
  match path with
  | [] => ['.']
  | c :: _ =>
    let rooted : Bool := c = '/'
    let out := (cleanElems rooted [] (splitSlash path)).reverse
    if rooted then '/' :: List.intercalate ['/'] out
    else if out = [] then ['.'] else List.intercalate ['/'] out

/-- Go `filepath.Clean` (Unix: no volume name, separator `/`). -/
def Clean (path : String) : String := ⟨cleanChars path.data⟩

/-- Go `filepath.Join`: leading empty elements are skipped, the rest is joined with
`/` and cleaned; the result is empty when every element is empty. -/
def Join : List String → String
  | [] => ""
  | e :: es =>
    if e = "" then Join es
    else Clean ⟨List.intercalate ['/'] ((e :: es).map String.data)⟩

/-- Go `filepath.Dir`: everything up to and including the last `/`, cleaned. -/
def Dir (path : String) : String :=
  Clean ⟨(path.data.reverse.dropWhile (fun c => c != '/')).reverse⟩

/-- Go `filepath.Base`: the last element of the path, trailing slashes removed. -/
def Base (path : String) : String :=
  if path = "" then "."
  else
    let stripped := path.data.reverse.dropWhile (fun c => c == '/')
    let last := (stripped.takeWhile (fun c => c != '/')).reverse
    if last = [] then "/" else ⟨last⟩

/-! ## Results -/

/-- A Go `error` value, by its message. -/
abbrev Err := String

/-- How a call ends: a value, a returned `error`, a run-time panic (which ends the
process), or exhausted fuel (the Go call would still be running). -/
inductive Res (α : Type) where
  | ok (a : α)
  | error (e : Err)
  | crash
  | timeout
  deriving DecidableEq, Repr

/-! ## The file system and `getOriginalFilePath` -/

/-- What the program looks at in `os.Lstat(path).Mode()`. -/
inductive FileMode where
  | symlink
  | regular
  | other
  deriving DecidableEq, Repr

/-- The file system as the program sees it: `os.Lstat` and `os.Readlink`. -/
structure FileSystem where
  Lstat : String → Except Err FileMode
  Readlink : String → Except Err String

/-- The function `getOriginalFilePath` (main.go 15-34): follow symbolic links to a
regular file. -/
def getOriginalFilePath (fs : FileSystem) : Nat → String → Res String
  | 0, _ => .timeout
  | fuel + 1, path =>
    match fs.Lstat path with
    | .error err => .error err
    | .ok mode =>
      match mode with
      | .symlink =>
        match fs.Readlink path with
        | .error err => .error err
        | .ok original =>
          let originalPath := Join [Dir path, original]
          getOriginalFilePath fs fuel originalPath
      | .regular => .ok path
      | .other => .error "Not a regular file or symlink"

/-- A file system given by a table: a path maps to `some target` when it is a symbolic
link, to `none` when it is a regular file; `dirs` are directories; everything else
does not exist. -/
def tableFS (files : List (String × Option String)) (dirs : List String) : FileSystem where
  Lstat := fun p =>
    match files.lookup p with
    | some (some _) => .ok .symlink
    | some none => .ok .regular
    | none => if dirs.contains p then .ok .other else .error "no such file or directory"
  Readlink := fun p =>
    match files.lookup p with
    | some (some t) => .ok t
    | _ => .error "invalid argument"

/-! ## The `otool -L` subprocess and `ReadDeps` -/

/-- The inner loop of the regular expression `(.*) \(.*\)$` on the text before the
final `)`: the first group is greedy, so the match uses the last ` (` of the text.
The result is the first group. -/
def greedyGroup : List Char → Option (List Char)
  | [] => none
  | c :: cs =>
    match greedyGroup cs with
    | some p => some (c :: p)
    | none => if c = ' ' ∧ cs.head? = some '(' then some [] else none

/-- Go `regexp.MustCompile("^\t(.*) \\(.*\\)$").FindStringSubmatch(line)`: the whole
match and the first group, or the nil slice (`[]`) when the line does not match.
`.` does not match a newline, `^` and `$` match only at the ends of the text. -/
def FindStringSubmatch (line : String) : List String :=
  match line.data with
  | '\t' :: rest =>
    if rest.contains '\n' then []
    else if rest.getLast? = some ')' then
      match greedyGroup rest.dropLast with
      | some p => [line, ⟨p⟩]
      | none => []
    else []
  | _ => []

/-- The struct `Dep` (main.go 36-41). -/
structure Dep where
  Path : String
  RealPath : String
  TargetPath : String
  FixPath : String
  deriving DecidableEq, Repr

/-- Go `map[string][]Dep`, as an association list with distinct keys. -/
abbrev DepMap := List (String × List Dep)

/-- The Go map test `_, ok := m[k]`. -/
def mapHas (m : DepMap) (k : String) : Bool := (m.lookup k).isSome

/-- The Go map assignment `m[k] = v`. -/
def mapSet (m : DepMap) (k : String) (v : List Dep) : DepMap :=
  if mapHas m k then m.map (fun e => if e.1 = k then (k, v) else e) else m ++ [(k, v)]

/-- The struct `ObjectMap` (main.go 43-48). -/
structure ObjectMap where
  TargetFolder : String
  FixBaseDir : String
  ExecPath : String
  Deps : DepMap
  deriving DecidableEq, Repr

/-- What one run of `otool -L` gives the scanner: the lines it yields, and the error
`scanner.Err()` reports after the last of them, if any. -/
structure OtoolRun where
  lines : List String
  scanErr : Option Err

/-- The `otool -L` subprocess: for a path, either `StdoutPipe`/`Start` fails or a run. -/
abbrev Otool := String → Except Err OtoolRun

/-- The scanner loop of `ReadDeps` (main.go 94-120), `output` being the slice built
so far. -/
def scanLines (fs : FileSystem) (fuel : Nat) (om : ObjectMap) :
    List String → List Dep → Res (List Dep)
  | [], output => .ok output
  | line :: rest, output =>
    if HasPrefix line "\t" then
      match (FindStringSubmatch line)[1]? with
      | none => .crash
      | some path =>
        match getOriginalFilePath fs fuel path with
        | .error err => .error err
        | .crash => .crash
        | .timeout => .timeout
        | .ok normalized =>
          if !HasPrefix normalized "/usr/lib" && HasSuffix normalized ".dylib" then
            let targetPath := Join [om.TargetFolder, Base normalized]
            let fixPath := om.FixBaseDir ++ Base normalized
            let dep : Dep :=
              { Path := path, RealPath := normalized, TargetPath := targetPath,
                FixPath := fixPath }
            scanLines fs fuel om rest (output ++ [dep])
          else scanLines fs fuel om rest output
    else scanLines fs fuel om rest output

/-- The method `ObjectMap.ReadDeps` (main.go 80-126). -/
def ReadDeps (fs : FileSystem) (otool : Otool) (fuel : Nat) (om : ObjectMap)
    (filepath : String) : Res (List Dep) :=
  match otool filepath with
  | .error err => .error err
  | .ok run =>
    match scanLines fs fuel om run.lines [] with
    | .ok output =>
      match run.scanErr with
      | some err => .error err
      | none => .ok output
    | r => r

/-! ## The graph build: `NewObject`, `NewExec` -/

/-- The object map during the build, with the arguments of the calls of `NewObject`
made so far, in call order (a record of the recursion, not a Go variable). -/
structure BuildState where
  om : ObjectMap
  visits : List String
  deriving DecidableEq, Repr

/-- The loop over `deps` in `NewObject` (main.go 70-75); `visit` is the recursive
call.  The `error` a call returns is not looked at; a panic or a call that does not
return ends the loop. -/
def visitDeps (visit : BuildState → String → BuildState × Res Unit) :
    List Dep → BuildState → BuildState × Res Unit
  | [], st => (st, .ok ())
  | dep :: rest, st =>
    if mapHas st.om.Deps dep.RealPath then visitDeps visit rest st
    else
      match visit st dep.RealPath with
      | (st', .crash) => (st', .crash)
      | (st', .timeout) => (st', .timeout)
      | (st', _) => visitDeps visit rest st'

/-- The method `ObjectMap.NewObject` (main.go 55-78). -/
def NewObject (fs : FileSystem) (otool : Otool) :
    Nat → BuildState → String → BuildState × Res Unit
  | 0, st, _ => (st, .timeout)
  | fuel + 1, st, filepath =>
    let st : BuildState := { st with visits := st.visits ++ [filepath] }
    match getOriginalFilePath fs (fuel + 1) filepath with
    | .error err => (st, .error err)
    | .crash => (st, .crash)
    | .timeout => (st, .timeout)
    | .ok normalized =>
      match ReadDeps fs otool (fuel + 1) st.om filepath with
      | .error err => (st, .error err)
      | .crash => (st, .crash)
      | .timeout => (st, .timeout)
      | .ok deps =>
        let st : BuildState :=
          { st with om := { st.om with Deps := mapSet st.om.Deps normalized deps } }
        visitDeps (NewObject fs otool fuel) deps st

/-- The method `ObjectMap.NewExec` (main.go 50-53). -/
def NewExec (fs : FileSystem) (otool : Otool) (fuel : Nat) (st : BuildState)
    (filepath : String) : BuildState × Res Unit :=
  NewObject fs otool fuel { st with om := { st.om with ExecPath := filepath } } filepath

/-- The graph build as `main` runs it (main.go 214-219): an empty map, then `NewExec`. -/
def buildGraph (fs : FileSystem) (otool : Otool) (fuel : Nat)
    (execPath targetFolder fixBaseDir : String) : BuildState × Res Unit :=
  NewExec fs otool fuel
    { om := { TargetFolder := targetFolder, FixBaseDir := fixBaseDir, ExecPath := "",
              Deps := [] },
      visits := [] }
    execPath

/-! ## The subprocesses and calls that change files -/

/-- The commands the two passes issue. -/
inductive Cmd where
  /-- The command `cp -rf src dst`. -/
  | cp (src dst : String)
  /-- The call `os.Chmod(path, mode)`. -/
  | chmod (path : String) (mode : Nat)
  /-- The command `install_name_tool -id id target`. -/
  | installNameId (id target : String)
  /-- The command `install_name_tool -change old new target`. -/
  | installNameChange (old new target : String)
  deriving DecidableEq, Repr

/-- The outside world for commands: given the commands already run, whether the next
one fails (`some err`) or succeeds (`none`). -/
abbrev Exec := List Cmd → Cmd → Option Err

/-- The state of `CopyToTargets`: the commands run so far and the keys of the Go map
`copied`. -/
structure CopyState where
  trace : List Cmd
  copied : List String
  deriving DecidableEq, Repr

/-- The state of `FixTargets`: the commands run so far and the keys of the Go map
`fixed`. -/
structure FixState where
  trace : List Cmd
  fixed : List String
  deriving DecidableEq, Repr

/-- The three steps for one dependency in `CopyToTargets` (main.go 134-150). -/
def copyOne (ext : Exec) (dep : Dep) (st : CopyState) : CopyState × Option Err :=
  let c1 := Cmd.cp dep.RealPath dep.TargetPath
  match ext st.trace c1 with
  | some err => ({ st with trace := st.trace ++ [c1] }, some err)
  | none =>
    let c2 := Cmd.chmod dep.TargetPath 0o644
    match ext (st.trace ++ [c1]) c2 with
    | some err => ({ st with trace := st.trace ++ [c1, c2] }, some err)
    | none =>
      let c3 := Cmd.installNameId dep.FixPath dep.TargetPath
      match ext (st.trace ++ [c1, c2]) c3 with
      | some err => ({ st with trace := st.trace ++ [c1, c2, c3] }, some err)
      | none =>
        ({ trace := st.trace ++ [c1, c2, c3], copied := st.copied ++ [dep.TargetPath] }, none)

/-- The inner loop of `CopyToTargets` (main.go 131-152). -/
def copyDeps (ext : Exec) : List Dep → CopyState → CopyState × Option Err
  | [], st => (st, none)
  | dep :: rest, st =>
    if st.copied.contains dep.TargetPath then copyDeps ext rest st
    else
      match copyOne ext dep st with
      | (st', some err) => (st', some err)
      | (st', none) => copyDeps ext rest st'

/-- The outer loop of `CopyToTargets` (main.go 130-153) over the entries in the order
the `range` yields them. -/
def copyEntries (ext : Exec) : List (String × List Dep) → CopyState → CopyState × Option Err
  | [], st => (st, none)
  | entry :: rest, st =>
    match copyDeps ext entry.2 st with
    | (st', some err) => (st', some err)
    | (st', none) => copyEntries ext rest st'

/-- The method `ObjectMap.CopyToTargets` (main.go 128-158).  Go ranges over a map in an
unspecified order: `order` is the sequence of entries the `range` yields, some
permutation of `om.Deps`. -/
def CopyToTargets (ext : Exec) (order : List (String × List Dep)) : CopyState × Option Err :=
  copyEntries ext order { trace := [], copied := [] }

/-- The rewrite target `FixTargets` computes for the entry with key `path`
(main.go 163-174). -/
def rewriteTarget (fs : FileSystem) (fuel : Nat) (om : ObjectMap) (path : String) :
    Res String :=
  if om.ExecPath = path then .ok path
  else
    match getOriginalFilePath fs fuel path with
    | .ok normalized => .ok (Join [om.TargetFolder, Base normalized])
    | r => r

/-- The loop over `deps` in `FixTargets` (main.go 178-183). -/
def fixDeps (ext : Exec) (targetPath : String) : List Dep → List Cmd → List Cmd × Option Err
  | [], trace => (trace, none)
  | dep :: rest, trace =>
    let c := Cmd.installNameChange dep.Path dep.FixPath targetPath
    match ext trace c with
    | some err => (trace ++ [c], some err)
    | none => fixDeps ext targetPath rest (trace ++ [c])

/-- The loop of `FixTargets` (main.go 162-186) over the entries in the order the
`range` yields them. -/
def fixEntries (fs : FileSystem) (fuel : Nat) (ext : Exec) (om : ObjectMap) :
    List (String × List Dep) → FixState → FixState × Res Unit
  | [], st => (st, .ok ())
  | entry :: rest, st =>
    match rewriteTarget fs fuel om entry.1 with
    | .error err => (st, .error err)
    | .crash => (st, .crash)
    | .timeout => (st, .timeout)
    | .ok targetPath =>
      if st.fixed.contains targetPath then fixEntries fs fuel ext om rest st
      else
        match fixDeps ext targetPath entry.2 st.trace with
        | (trace, some err) => ({ st with trace := trace }, .error err)
        | (trace, none) =>
          fixEntries fs fuel ext om rest { trace := trace, fixed := st.fixed ++ [targetPath] }

/-- The method `ObjectMap.FixTargets` (main.go 160-191); `order` as in `CopyToTargets`. -/
def FixTargets (fs : FileSystem) (fuel : Nat) (ext : Exec) (om : ObjectMap)
    (order : List (String × List Dep)) : FixState × Res Unit :=
  fixEntries fs fuel ext om order { trace := [], fixed := [] }

/-! ## Definitions used to state the properties -/

/-- The path `P` is a symbolic link whose recorded target, joined to the directory of `P`,
is `Q`. -/
def LinkStep (fs : FileSystem) (P Q : String) : Prop :=
  fs.Lstat P = .ok .symlink ∧ ∃ t, fs.Readlink P = .ok t ∧ Join [Dir P, t] = Q

/-- The declared paths of an oracle output, in emission order: the path of every line
of the shape "tab, path, space, parenthesised suffix". -/
def declaredPaths (lines : List String) : List String :=
  lines.filterMap (fun line => (FindStringSubmatch line)[1]?)

/-- Reference definition of extraction, from the words of the specification: one edge,
in order, for each declared path whose canonical path does not start with `/usr/lib`
and ends with `.dylib`; `resolve` gives the canonical path of a declared path. -/
def extractDepsSpec (resolve : String → String) (targetDir fixBaseDir : String)
    (declared : List String) : List Dep :=
  (declared.filter
      (fun p => !HasPrefix (resolve p) "/usr/lib" && HasSuffix (resolve p) ".dylib")).map
    (fun p =>
      { Path := p, RealPath := resolve p,
        TargetPath := Join [targetDir, Base (resolve p)],
        FixPath := fixBaseDir ++ Base (resolve p) })

/-- The reference rewrites of one fixed entry, given as its rewrite target and its
edges: one `install_name_tool -change` per edge, in edge order. -/
def rewritesOf (x : String × List Dep) : List Cmd :=
  x.2.map (fun d => Cmd.installNameChange d.Path d.FixPath x.1)

/-- The commands that stage one dependency: copy, permission-set, self-identity. -/
def stageCmds (d : Dep) : List Cmd :=
  [Cmd.cp d.RealPath d.TargetPath, Cmd.chmod d.TargetPath 0o644,
   Cmd.installNameId d.FixPath d.TargetPath]

/-- Is the command a copy with source `C`? -/
def isCopyFrom (C : String) : Cmd → Bool
  | .cp src _ => src == C
  | _ => false

/-- The keys of a graph. -/
def keys (m : DepMap) : List String := m.map Prod.fst

/-- The canonical paths that occur as an edge target in a graph. -/
def edgeTargets (m : DepMap) : List String := (m.flatMap Prod.snd).map Dep.RealPath

/-! ## Concrete file systems and oracle outputs -/

/-- The suffix `otool -L` prints after each library path. -/
def sfx : String := " (compatibility version 1.0.0, current version 1.0.0)"

/-- An `otool` given by a table of output lines per binary; it fails to start on any
other path and its scanner never fails. -/
def tableOtool (tbl : List (String × List String)) : Otool := fun p =>
  match tbl.lookup p with
  | some ls => .ok { lines := ls, scanErr := none }
  | none => .error "exec: otool failed"

/-- An outside world in which every command succeeds. -/
def allSucceed : Exec := fun _ _ => none

/-- A file system with an executable and two libraries, all regular files. -/
def fsBroken : FileSystem :=
  tableFS [("/app/exe", none), ("/opt/lib/libX.dylib", none), ("/opt/lib/libY.dylib", none)]
    ["/app", "/opt/lib"]

/-- The executable uses `libX` and `libY`, `libY` uses `libX`, and `libX` declares a
reference `@rpath/libZ.dylib`, which is not a path of the file system. -/
def otoolBroken : Otool :=
  tableOtool
    [("/app/exe", ["/app/exe:", "\t/opt/lib/libX.dylib" ++ sfx, "\t/opt/lib/libY.dylib" ++ sfx]),
     ("/opt/lib/libX.dylib", ["/opt/lib/libX.dylib:", "\t@rpath/libZ.dylib" ++ sfx]),
     ("/opt/lib/libY.dylib", ["/opt/lib/libY.dylib:", "\t/opt/lib/libX.dylib" ++ sfx])]

/-- The root executable path `/app/bin/exe` is a symbolic link to `exe-1.0`. -/
def fsLinkedExe : FileSystem :=
  tableFS [("/app/bin/exe", some "exe-1.0"), ("/app/bin/exe-1.0", none),
           ("/opt/lib/libX.dylib", none)] ["/app/bin", "/opt/lib"]

/-- The executable uses `libX`, which uses nothing. -/
def otoolLinkedExe : Otool :=
  tableOtool
    [("/app/bin/exe", ["/app/bin/exe:", "\t/opt/lib/libX.dylib" ++ sfx]),
     ("/opt/lib/libX.dylib", ["/opt/lib/libX.dylib:"])]

/-- The link `/opt/lib/libfoo.dylib` has the absolute target
`/usr/local/Cellar/foo/libfoo.1.dylib`, a regular file. -/
def fsAbsLink : FileSystem :=
  tableFS [("/opt/lib/libfoo.dylib", some "/usr/local/Cellar/foo/libfoo.1.dylib"),
           ("/usr/local/Cellar/foo/libfoo.1.dylib", none)]
    ["/opt/lib", "/usr/local/Cellar/foo"]

/-- An oracle output whose last line begins with a tab and has no ` (...)` suffix. -/
def linesBare : List String :=
  ["/app/exe:", "\t/opt/lib/libX.dylib" ++ sfx, "\t/opt/lib/libY.dylib"]

/-- The output `linesBare` without its last line. -/
def linesBareRemoved : List String :=
  ["/app/exe:", "\t/opt/lib/libX.dylib" ++ sfx]

/-- The object map `main` starts from, for target folder `/out` and base `@rpath/`. -/
def omOut : ObjectMap :=
  { TargetFolder := "/out", FixBaseDir := "@rpath/", ExecPath := "", Deps := [] }

/-- A file system with a system library, a framework binary and a third-party library. -/
def fsFilter : FileSystem :=
  tableFS [("/usr/lib/libSystem.B.dylib", none),
           ("/System/Library/Frameworks/Cocoa.framework/Versions/A/Cocoa", none),
           ("/usr/local/lib/libfoo.dylib", none)] []

/-- An oracle output with one `/usr/lib` entry, one framework entry and one third-party
library entry. -/
def linesFilter : List String :=
  ["/app/exe:", "\t/usr/lib/libSystem.B.dylib" ++ sfx,
   "\t/System/Library/Frameworks/Cocoa.framework/Versions/A/Cocoa" ++ sfx,
   "\t/usr/local/lib/libfoo.dylib" ++ sfx]

/-- Two different libraries with the same file name `libfoo.dylib`. -/
def fsClash : FileSystem :=
  tableFS [("/app/exe", none), ("/opt/a/libfoo.dylib", none), ("/opt/b/libfoo.dylib", none),
           ("/opt/lib/libbar.dylib", none)] []

/-- The executable uses `/opt/a/libfoo.dylib`, `libbar` and `/opt/b/libfoo.dylib`;
`libbar` uses `/opt/b/libfoo.dylib`. -/
def otoolClash : Otool :=
  tableOtool
    [("/app/exe", ["/app/exe:", "\t/opt/a/libfoo.dylib" ++ sfx, "\t/opt/lib/libbar.dylib" ++ sfx,
        "\t/opt/b/libfoo.dylib" ++ sfx]),
     ("/opt/a/libfoo.dylib", ["/opt/a/libfoo.dylib:"]),
     ("/opt/b/libfoo.dylib", ["/opt/b/libfoo.dylib:"]),
     ("/opt/lib/libbar.dylib", ["/opt/lib/libbar.dylib:", "\t/opt/b/libfoo.dylib" ++ sfx])]

/-- The file system of the end-to-end scenario: `E`, `libX`, `libY` and a framework. -/
def fsGood : FileSystem :=
  tableFS [("/app/E", none), ("/usr/local/lib/libX.dylib", none),
           ("/usr/local/lib/libY.dylib", none),
           ("/System/Library/Frameworks/Cocoa.framework/Versions/A/Cocoa", none)] []

/-- The edge to `libX` in the end-to-end scenario. -/
def edgeX : Dep :=
  { Path := "/usr/local/lib/libX.dylib", RealPath := "/usr/local/lib/libX.dylib",
    TargetPath := "/out/libX.dylib", FixPath := "@rpath/libX.dylib" }

/-- The edge to `libY` in the end-to-end scenario. -/
def edgeY : Dep :=
  { Path := "/usr/local/lib/libY.dylib", RealPath := "/usr/local/lib/libY.dylib",
    TargetPath := "/out/libY.dylib", FixPath := "@rpath/libY.dylib" }

/-- A graph in which `E` and `libX` both have an edge to `libY`. -/
def omGood : ObjectMap :=
  { TargetFolder := "/out", FixBaseDir := "@rpath/", ExecPath := "/app/E",
    Deps := [("/app/E", [edgeX, edgeY]), ("/usr/local/lib/libX.dylib", [edgeY]),
             ("/usr/local/lib/libY.dylib", [])] }

/-- The oracle that yields `omGood`: `E` uses `libX` and `libY`, `libX` uses `libY`
and a system framework, `libY` uses nothing. -/
def otoolGood : Otool :=
  tableOtool
    [("/app/E", ["/app/E:", "\t/usr/local/lib/libX.dylib" ++ sfx,
        "\t/usr/local/lib/libY.dylib" ++ sfx]),
     ("/usr/local/lib/libX.dylib", ["/usr/local/lib/libX.dylib:",
        "\t/usr/local/lib/libY.dylib" ++ sfx,
        "\t/System/Library/Frameworks/Cocoa.framework/Versions/A/Cocoa" ++ sfx]),
     ("/usr/local/lib/libY.dylib", ["/usr/local/lib/libY.dylib:"])]

/-- A chain of links `A -> B -> C -> D` through relative targets, `D` a regular file. -/
def fsChain : FileSystem :=
  tableFS [("/w/A", some "B"), ("/w/B", some "sub/C"), ("/w/sub/C", some "../D"),
           ("/w/D", none)] ["/w", "/w/sub"]

/-! ## The Go library model on examples -/

/-- The functions `filepath.Clean`, `Join`, `Dir` and `Base` on cases of the Go documentation. -/
theorem filepath_examples :
    Clean "/opt/lib//usr/local/../x/./y/" = "/opt/lib/usr/x/y" ∧
    Clean "a/../../b" = "../b" ∧ Clean "/../a" = "/a" ∧ Clean "" = "." ∧
    Clean "a/.." = "." ∧
    Join ["/out", "libfoo.dylib"] = "/out/libfoo.dylib" ∧
    Join ["", "a"] = "a" ∧ Join ["a", ""] = "a" ∧ Join ["", ""] = "" ∧
    Dir "/opt/lib/libfoo.dylib" = "/opt/lib" ∧ Dir "libfoo.dylib" = "." ∧
    Dir "/libfoo.dylib" = "/" ∧
    Base "/opt/lib/libfoo.dylib" = "libfoo.dylib" ∧ Base "/opt/lib/" = "lib" ∧
    Base "///" = "/" ∧ Base "" = "." := by
  decide

/-- The regular expression of `ReadDeps` on example lines: the path is the text
between the tab and the last ` (`; a line without the suffix gives the nil slice. -/
theorem FindStringSubmatch_examples :
    FindStringSubmatch "\t/a/libfoo.dylib (compatibility version 1.0.0)" =
      ["\t/a/libfoo.dylib (compatibility version 1.0.0)", "/a/libfoo.dylib"] ∧
    FindStringSubmatch "\t/a (b) (c)" = ["\t/a (b) (c)", "/a (b)"] ∧
    FindStringSubmatch "\t/a ()" = ["\t/a ()", "/a"] ∧
    FindStringSubmatch "\t/a" = [] ∧ FindStringSubmatch "\t/a (" = [] ∧
    FindStringSubmatch "/a (b)" = [] := by
  decide

/-! ## Fuel: more fuel does not change a result -/

/-- A result of `getOriginalFilePath` other than `timeout` is the result for every
larger fuel. -/
theorem getOriginalFilePath_fuel_mono (fs : FileSystem) :
    ∀ (n : Nat) (p : String) (r : Res String),
      getOriginalFilePath fs n p = r → r ≠ .timeout →
      ∀ m, n ≤ m → getOriginalFilePath fs m p = r := by
  intro n
  induction n with
  | zero => intro p r h hr; simp [getOriginalFilePath] at h; exact absurd h.symm hr
  | succ n ih =>
    intro p r h hr m hm
    obtain ⟨m, rfl⟩ : ∃ k, m = k + 1 := ⟨m - 1, by omega⟩
    simp only [getOriginalFilePath] at h ⊢
    cases hl : fs.Lstat p with
    | error e => simpa [hl] using h
    | ok mode =>
      cases mode with
      | regular => simpa [hl] using h
      | other => simpa [hl] using h
      | symlink =>
        cases hrl : fs.Readlink p with
        | error e => simpa [hl, hrl] using h
        | ok t =>
          simp only [hl, hrl] at h ⊢
          exact ih _ _ h hr m (by omega)

/-- A result of the scanner loop other than `timeout` is the result for every
larger fuel. -/
theorem scanLines_fuel_mono (fs : FileSystem) (om : ObjectMap) (n m : Nat) (hnm : n ≤ m) :
    ∀ (lines : List String) (output : List Dep) (r : Res (List Dep)),
      scanLines fs n om lines output = r → r ≠ .timeout →
      scanLines fs m om lines output = r := by
  intro lines
  induction lines with
  | nil => intro output r h _; simpa [scanLines] using h
  | cons line rest ih =>
    intro output r h hr
    simp only [scanLines] at h ⊢
    split
    · rw [if_pos (by assumption)] at h
      split
      · next hnone => simpa [hnone] using h
      · next path hsome =>
        simp only [hsome] at h
        cases hres : getOriginalFilePath fs n path with
        | timeout => simp only [hres] at h; exact absurd h.symm hr
        | error e =>
          rw [getOriginalFilePath_fuel_mono fs n path _ hres (by simp) m hnm]
          simpa [hres] using h
        | crash =>
          rw [getOriginalFilePath_fuel_mono fs n path _ hres (by simp) m hnm]
          simpa [hres] using h
        | ok normalized =>
          rw [getOriginalFilePath_fuel_mono fs n path _ hres (by simp) m hnm]
          simp only [hres] at h ⊢
          split
          · rw [if_pos (by assumption)] at h; exact ih _ _ h hr
          · rw [if_neg (by assumption)] at h; exact ih _ _ h hr
    · rw [if_neg (by assumption)] at h; exact ih _ _ h hr

/-- A result of `ReadDeps` other than `timeout` is the result for every larger fuel. -/
theorem ReadDeps_fuel_mono (fs : FileSystem) (otool : Otool) (om : ObjectMap) (n m : Nat)
    (hnm : n ≤ m) (filepath : String) (r : Res (List Dep))
    (h : ReadDeps fs otool n om filepath = r) (hr : r ≠ .timeout) :
    ReadDeps fs otool m om filepath = r := by
  unfold ReadDeps at h ⊢
  cases hrun : otool filepath with
  | error e => simpa [hrun] using h
  | ok run =>
    simp only [hrun] at h ⊢
    cases hs : scanLines fs n om run.lines [] with
    | timeout => simp only [hs] at h; exact absurd h.symm hr
    | ok out =>
      rw [scanLines_fuel_mono fs om n m hnm _ _ _ hs (by simp)]
      simpa [hs] using h
    | error e =>
      rw [scanLines_fuel_mono fs om n m hnm _ _ _ hs (by simp)]
      simpa [hs] using h
    | crash =>
      rw [scanLines_fuel_mono fs om n m hnm _ _ _ hs (by simp)]
      simpa [hs] using h

/-- The loop over `deps` gives the same result for a recursive call that agrees on
all results other than `timeout`. -/
theorem visitDeps_mono (v w : BuildState → String → BuildState × Res Unit)
    (hvw : ∀ st p st' r, v st p = (st', r) → r ≠ .timeout → w st p = (st', r)) :
    ∀ (deps : List Dep) (st st' : BuildState) (r : Res Unit),
      visitDeps v deps st = (st', r) → r ≠ .timeout → visitDeps w deps st = (st', r) := by
  intro deps
  induction deps with
  | nil => intro st st' r h _; simpa [visitDeps] using h
  | cons dep rest ih =>
    intro st st' r h hr
    simp only [visitDeps] at h ⊢
    split
    · rw [if_pos (by assumption)] at h; exact ih _ _ _ h hr
    · rw [if_neg (by assumption)] at h
      cases hv : v st dep.RealPath with
      | mk st1 r1 =>
        cases r1 with
        | timeout =>
          simp only [hv, Prod.mk.injEq] at h
          exact absurd h.2.symm hr
        | crash =>
          rw [hvw _ _ _ _ hv (by simp)]
          simpa [hv] using h
        | ok u =>
          rw [hvw _ _ _ _ hv (by simp)]
          simp only [hv] at h ⊢
          exact ih _ _ _ h hr
        | error e =>
          rw [hvw _ _ _ _ hv (by simp)]
          simp only [hv] at h ⊢
          exact ih _ _ _ h hr

/-- A result of `NewObject` other than `timeout` is the result for every larger fuel. -/
theorem NewObject_fuel_mono (fs : FileSystem) (otool : Otool) :
    ∀ (n : Nat) (st : BuildState) (p : String) (st' : BuildState) (r : Res Unit),
      NewObject fs otool n st p = (st', r) → r ≠ .timeout →
      ∀ m, n ≤ m → NewObject fs otool m st p = (st', r) := by
  intro n
  induction n with
  | zero =>
    intro st p st' r h hr
    simp only [NewObject, Prod.mk.injEq] at h
    exact absurd h.2.symm hr
  | succ n ih =>
    intro st p st' r h hr m hm
    obtain ⟨m, rfl⟩ : ∃ k, m = k + 1 := ⟨m - 1, by omega⟩
    simp only [NewObject] at h ⊢
    cases hres : getOriginalFilePath fs (n + 1) p with
    | timeout =>
      simp only [hres, Prod.mk.injEq] at h
      exact absurd h.2.symm hr
    | error e =>
      rw [getOriginalFilePath_fuel_mono fs _ p _ hres (by simp) (m + 1) hm]
      simpa [hres] using h
    | crash =>
      rw [getOriginalFilePath_fuel_mono fs _ p _ hres (by simp) (m + 1) hm]
      simpa [hres] using h
    | ok normalized =>
      rw [getOriginalFilePath_fuel_mono fs _ p _ hres (by simp) (m + 1) hm]
      simp only [hres] at h ⊢
      cases hrd : ReadDeps fs otool (n + 1) st.om p with
      | timeout =>
        simp only [hrd, Prod.mk.injEq] at h
        exact absurd h.2.symm hr
      | error e =>
        rw [ReadDeps_fuel_mono fs otool _ _ _ hm p _ hrd (by simp)]
        simpa [hrd] using h
      | crash =>
        rw [ReadDeps_fuel_mono fs otool _ _ _ hm p _ hrd (by simp)]
        simpa [hrd] using h
      | ok deps =>
        rw [ReadDeps_fuel_mono fs otool _ _ _ hm p _ hrd (by simp)]
        simp only [hrd] at h ⊢
        exact visitDeps_mono _ _ (fun s q s' r' hv hr' => ih s q s' r' hv hr' m (by omega))
          _ _ _ _ h hr

/-- A result of the graph build other than `timeout` is the result for every larger
fuel. -/
theorem buildGraph_fuel_mono (fs : FileSystem) (otool : Otool) (n m : Nat) (hnm : n ≤ m)
    (execPath targetFolder fixBaseDir : String) (st : BuildState) (r : Res Unit)
    (h : buildGraph fs otool n execPath targetFolder fixBaseDir = (st, r))
    (hr : r ≠ .timeout) :
    buildGraph fs otool m execPath targetFolder fixBaseDir = (st, r) :=
  NewObject_fuel_mono fs otool n _ _ _ _ h hr m hnm

/-- The graph build at fuel `n + k` equals the build at fuel `n` when that one returns. -/
theorem buildGraph_fuel_stable (fs : FileSystem) (otool : Otool) (n k : Nat)
    (execPath targetFolder fixBaseDir : String)
    (hr : (buildGraph fs otool n execPath targetFolder fixBaseDir).2 ≠ .timeout) :
    buildGraph fs otool (n + k) execPath targetFolder fixBaseDir =
      buildGraph fs otool n execPath targetFolder fixBaseDir :=
  buildGraph_fuel_mono fs otool n (n + k) (Nat.le_add_right n k) _ _ _ _ _ rfl hr

/-- The rewrite target computed with fuel `n`, when not `timeout`, is the one computed
with every larger fuel. -/
theorem rewriteTarget_fuel_mono (fs : FileSystem) (om : ObjectMap) (n m : Nat) (hnm : n ≤ m)
    (p : String) (r : Res String) (h : rewriteTarget fs n om p = r) (hr : r ≠ .timeout) :
    rewriteTarget fs m om p = r := by
  unfold rewriteTarget at h ⊢
  split
  · rw [if_pos (by assumption)] at h; exact h
  · rw [if_neg (by assumption)] at h
    cases hres : getOriginalFilePath fs n p with
    | timeout => simp only [hres] at h; exact absurd h.symm hr
    | ok c =>
      rw [getOriginalFilePath_fuel_mono fs n p _ hres (by simp) m hnm]
      simpa [hres] using h
    | error e =>
      rw [getOriginalFilePath_fuel_mono fs n p _ hres (by simp) m hnm]
      simpa [hres] using h
    | crash =>
      rw [getOriginalFilePath_fuel_mono fs n p _ hres (by simp) m hnm]
      simpa [hres] using h

/-- A result of the loop of `FixTargets` other than `timeout` is the result for every
larger fuel. -/
theorem fixEntries_fuel_mono (fs : FileSystem) (ext : Exec) (om : ObjectMap) (n m : Nat)
    (hnm : n ≤ m) :
    ∀ (order : List (String × List Dep)) (st st' : FixState) (r : Res Unit),
      fixEntries fs n ext om order st = (st', r) → r ≠ .timeout →
      fixEntries fs m ext om order st = (st', r) := by
  intro order
  induction order with
  | nil => intro st st' r h _; simpa [fixEntries] using h
  | cons entry rest ih =>
    intro st st' r h hr
    simp only [fixEntries] at h ⊢
    cases hT : rewriteTarget fs n om entry.1 with
    | timeout =>
      simp only [hT, Prod.mk.injEq] at h
      exact absurd h.2.symm hr
    | error e =>
      rw [rewriteTarget_fuel_mono fs om n m hnm _ _ hT (by simp)]
      simpa [hT] using h
    | crash =>
      rw [rewriteTarget_fuel_mono fs om n m hnm _ _ hT (by simp)]
      simpa [hT] using h
    | ok T =>
      rw [rewriteTarget_fuel_mono fs om n m hnm _ _ hT (by simp)]
      simp only [hT] at h ⊢
      split
      · rw [if_pos (by assumption)] at h; exact ih _ _ _ h hr
      · rw [if_neg (by assumption)] at h
        cases hf : fixDeps ext T entry.2 st.trace with
        | mk trace e =>
          cases e with
          | some err => simpa [hf] using h
          | none =>
            simp only [hf] at h ⊢
            exact ih _ _ _ h hr

/-- The run of `FixTargets` at fuel `n + k` equals the run at fuel `n` when that one
returns. -/
theorem FixTargets_fuel_stable (fs : FileSystem) (ext : Exec) (om : ObjectMap) (n k : Nat)
    (order : List (String × List Dep))
    (hr : (FixTargets fs n ext om order).2 ≠ .timeout) :
    FixTargets fs (n + k) ext om order = FixTargets fs n ext om order :=
  fixEntries_fuel_mono fs ext om n (n + k) (Nat.le_add_right n k) _ _ _ _ rfl hr

/-! ## The end-to-end scenario -/

/-- The end-to-end scenario: `E` uses `libX` and `libY`, `libX` uses `libY` and a
framework, `libY` uses nothing.  For every fuel from 3 on the build returns the graph
`omGood`, after three visits; staging copies `libX` and `libY`; fixing rewrites the
references in `E` and in the staged `libX`. -/
theorem end_to_end :
    ∀ k : Nat,
      buildGraph fsGood otoolGood (3 + k) "/app/E" "/out" "@rpath/" =
        ({ om := omGood,
           visits := ["/app/E", "/usr/local/lib/libX.dylib", "/usr/local/lib/libY.dylib"] },
         .ok ()) ∧
      CopyToTargets allSucceed omGood.Deps =
        ({ trace := stageCmds edgeX ++ stageCmds edgeY,
           copied := ["/out/libX.dylib", "/out/libY.dylib"] }, none) ∧
      (FixTargets fsGood (1 + k) allSucceed omGood omGood.Deps).1.trace =
        rewritesOf ("/app/E", [edgeX, edgeY]) ++ rewritesOf ("/out/libX.dylib", [edgeY]) := by
  intro k
  rw [buildGraph_fuel_stable fsGood otoolGood 3 k _ _ _ (by decide),
    FixTargets_fuel_stable fsGood allSucceed omGood 1 k _ (by decide)]
  decide

/-- The resolver at fuel `n + k` equals the resolver at fuel `n` when that one returns. -/
theorem getOriginalFilePath_fuel_stable (fs : FileSystem) (n k : Nat) (p : String)
    (hr : getOriginalFilePath fs n p ≠ .timeout) :
    getOriginalFilePath fs (n + k) p = getOriginalFilePath fs n p :=
  getOriginalFilePath_fuel_mono fs n p _ rfl hr (n + k) (Nat.le_add_right n k)

/-- The result of `ReadDeps` at fuel `n + k` equals the result at fuel `n` when that one returns. -/
theorem ReadDeps_fuel_stable (fs : FileSystem) (otool : Otool) (om : ObjectMap) (n k : Nat)
    (filepath : String) (hr : ReadDeps fs otool n om filepath ≠ .timeout) :
    ReadDeps fs otool (n + k) om filepath = ReadDeps fs otool n om filepath :=
  ReadDeps_fuel_mono fs otool om n (n + k) (Nat.le_add_right n k) filepath _ rfl hr

/-- The rewrite target at fuel `n + k` equals the one at fuel `n` when that one returns. -/
theorem rewriteTarget_fuel_stable (fs : FileSystem) (om : ObjectMap) (n k : Nat) (p : String)
    (hr : rewriteTarget fs n om p ≠ .timeout) :
    rewriteTarget fs (n + k) om p = rewriteTarget fs n om p :=
  rewriteTarget_fuel_mono fs om n (n + k) (Nat.le_add_right n k) p _ rfl hr

/-! ## Extraction -/

/-- A line that does not begin with a tab does not match the pattern. -/
theorem FindStringSubmatch_of_not_tab (line : String) (h : HasPrefix line "\t" = false) :
    FindStringSubmatch line = [] := by
  unfold FindStringSubmatch
  unfold HasPrefix at h
  split
  · next rest heq =>
    rw [heq] at h
    simp [List.isPrefixOf] at h
  · rfl

/-- The scanner loop appends the reference edges when every tab line matches and
resolves. -/
theorem scanLines_eq_spec (fs : FileSystem) (fuel : Nat) (om : ObjectMap)
    (resolve : String → String) :
    ∀ (lines : List String) (output : List Dep),
      (∀ line ∈ lines, HasPrefix line "\t" = true →
        ∃ p, (FindStringSubmatch line)[1]? = some p ∧
          getOriginalFilePath fs fuel p = .ok (resolve p)) →
      scanLines fs fuel om lines output =
        .ok (output ++ extractDepsSpec resolve om.TargetFolder om.FixBaseDir
          (declaredPaths lines)) := by
  intro lines
  induction lines with
  | nil => intro output _; simp [scanLines, extractDepsSpec, declaredPaths]
  | cons line rest ih =>
    intro output h
    have hrest := fun o => ih o (fun l hl => h l (List.mem_cons_of_mem _ hl))
    cases htab : HasPrefix line "\t" with
    | false =>
      have hno := FindStringSubmatch_of_not_tab line htab
      simp only [scanLines, htab, hrest, declaredPaths, List.filterMap_cons, hno]
      simp
    | true =>
      obtain ⟨p, hp, hres⟩ := h line (List.mem_cons_self _ _) htab
      simp only [scanLines, htab, hp, hres, declaredPaths, List.filterMap_cons, if_true]
      by_cases hk : (!HasPrefix (resolve p) "/usr/lib" && HasSuffix (resolve p) ".dylib") = true
      · rw [if_pos hk, hrest]
        simp [extractDepsSpec, declaredPaths, List.filter_cons, hk]
      · rw [if_neg hk, hrest]
        simp [extractDepsSpec, declaredPaths, List.filter_cons, hk]

/-- When every tab line resolves with some fuel, one fuel is enough for all of them. -/
theorem exists_common_fuel (fs : FileSystem) (resolve : String → String) :
    ∀ (lines : List String),
      (∀ line ∈ lines, HasPrefix line "\t" = true →
        ∃ p, (FindStringSubmatch line)[1]? = some p ∧
          ∃ n, getOriginalFilePath fs n p = .ok (resolve p)) →
      ∃ N, ∀ fuel, N ≤ fuel → ∀ line ∈ lines, HasPrefix line "\t" = true →
        ∃ p, (FindStringSubmatch line)[1]? = some p ∧
          getOriginalFilePath fs fuel p = .ok (resolve p) := by
  intro lines
  induction lines with
  | nil => intro _; exact ⟨0, by simp⟩
  | cons line rest ih =>
    intro h
    obtain ⟨N, hN⟩ := ih (fun l hl => h l (List.mem_cons_of_mem _ hl))
    cases htab : HasPrefix line "\t" with
    | false =>
      refine ⟨N, fun fuel hf l hl hlt => ?_⟩
      rcases List.mem_cons.1 hl with rfl | hl
      · rw [htab] at hlt; cases hlt
      · exact hN fuel hf l hl hlt
    | true =>
      obtain ⟨p, hp, n, hn⟩ := h line (List.mem_cons_self _ _) htab
      refine ⟨max N n, fun fuel hf l hl hlt => ?_⟩
      rcases List.mem_cons.1 hl with rfl | hl
      · exact ⟨p, hp, getOriginalFilePath_fuel_mono fs n p _ hn (by simp) fuel (by omega)⟩
      · exact hN fuel (by omega) l hl hlt

/-! ## The two passes over the graph -/

/-- A loop over `deps` in `FixTargets` that succeeds has issued the rewrites of the
entry, in edge order. -/
theorem fixDeps_ok (ext : Exec) (T : String) :
    ∀ (deps : List Dep) (trace trace' : List Cmd),
      fixDeps ext T deps trace = (trace', none) →
      trace' = trace ++ rewritesOf (T, deps) := by
  intro deps
  induction deps with
  | nil => intro trace trace' h; simp [fixDeps] at h; simp [rewritesOf, h]
  | cons d rest ih =>
    intro trace trace' h
    simp only [fixDeps] at h
    cases he : ext trace (Cmd.installNameChange d.Path d.FixPath T) with
    | some err => simp [he] at h
    | none =>
      simp only [he] at h
      have := ih _ _ h
      simp [rewritesOf] at this ⊢
      exact this

/-- The loop of `FixTargets`, when it succeeds from a state with distinct fixed
targets, has fixed a list of entries with distinct new targets and nothing else. -/
theorem fixEntries_ok (fs : FileSystem) (fuel : Nat) (ext : Exec) (om : ObjectMap) :
    ∀ (order : List (String × List Dep)) (st st' : FixState),
      st.fixed.Nodup →
      fixEntries fs fuel ext om order st = (st', .ok ()) →
      ∃ chosen : List (String × List Dep),
        (∀ x ∈ chosen, ∃ e ∈ order, rewriteTarget fs fuel om e.1 = .ok x.1 ∧ e.2 = x.2) ∧
        st'.fixed = st.fixed ++ chosen.map Prod.fst ∧
        st'.fixed.Nodup ∧
        (∀ e ∈ order, ∃ T, rewriteTarget fs fuel om e.1 = .ok T ∧ T ∈ st'.fixed) ∧
        st'.trace = st.trace ++ chosen.flatMap rewritesOf := by
  intro order
  induction order with
  | nil =>
    intro st st' hnd h
    simp only [fixEntries, Prod.mk.injEq, and_true] at h
    subst h
    exact ⟨[], by simp, by simp, hnd, by simp, by simp⟩
  | cons entry rest ih =>
    intro st st' hnd h
    simp only [fixEntries] at h
    cases hT : rewriteTarget fs fuel om entry.1 with
    | error e => simp [hT] at h
    | crash => simp [hT] at h
    | timeout => simp [hT] at h
    | ok T =>
      simp only [hT] at h
      by_cases hc : st.fixed.contains T = true
      · rw [if_pos hc] at h
        obtain ⟨chosen, h1, h2, h3, h4, h5⟩ := ih st st' hnd h
        refine ⟨chosen, ?_, h2, h3, ?_, h5⟩
        · intro x hx
          obtain ⟨e, he, hr⟩ := h1 x hx
          exact ⟨e, List.mem_cons_of_mem _ he, hr⟩
        · intro e he
          rcases List.mem_cons.1 he with rfl | he
          · refine ⟨T, hT, ?_⟩
            rw [h2]
            exact List.mem_append_left _ (by simpa using hc)
          · exact h4 e he
      · rw [if_neg hc] at h
        cases hf : fixDeps ext T entry.2 st.trace with
        | mk trace r =>
          cases r with
          | some err => simp [hf] at h
          | none =>
            simp only [hf] at h
            have htr := fixDeps_ok ext T entry.2 st.trace trace hf
            have hnd' : (st.fixed ++ [T]).Nodup := by
              rw [List.nodup_append]
              refine ⟨hnd, by simp, ?_⟩
              intro a ha hb
              simp at hb
              subst hb
              exact hc (by simpa using ha)
            obtain ⟨chosen, h1, h2, h3, h4, h5⟩ :=
              ih { trace := trace, fixed := st.fixed ++ [T] } st' hnd' h
            refine ⟨(T, entry.2) :: chosen, ?_, ?_, h3, ?_, ?_⟩
            · intro x hx
              rcases List.mem_cons.1 hx with rfl | hx
              · exact ⟨entry, List.mem_cons_self _ _, hT, rfl⟩
              · obtain ⟨e, he, hr⟩ := h1 x hx
                exact ⟨e, List.mem_cons_of_mem _ he, hr⟩
            · simpa using h2
            · intro e he
              rcases List.mem_cons.1 he with rfl | he
              · refine ⟨T, hT, ?_⟩
                rw [h2]
                simp
              · exact h4 e he
            · rw [h5, htr]
              simp [List.flatMap_cons]

/-- The loop over `deps` in `NewObject` never ends with an `error`, whatever the
recursive calls return. -/
theorem visitDeps_ne_error (visit : BuildState → String → BuildState × Res Unit) :
    ∀ (deps : List Dep) (st : BuildState) (e : Err),
      (visitDeps visit deps st).2 ≠ .error e := by
  intro deps
  induction deps with
  | nil => intro st e; simp [visitDeps]
  | cons dep rest ih =>
    intro st e
    simp only [visitDeps]
    split
    · exact ih st e
    · cases hv : visit st dep.RealPath with
      | mk st1 r1 =>
        cases r1 with
        | timeout => simp
        | crash => simp
        | ok u => exact ih st1 e
        | error e1 => exact ih st1 e

/-- An `error` that `NewObject` returns is the error of the resolution or of the
extraction of its own argument: no failure of a dependency reaches the caller. -/
theorem NewObject_error_is_own (fs : FileSystem) (otool : Otool) (fuel : Nat)
    (st : BuildState) (filepath : String) (e : Err)
    (h : (NewObject fs otool (fuel + 1) st filepath).2 = .error e) :
    getOriginalFilePath fs (fuel + 1) filepath = .error e ∨
      ReadDeps fs otool (fuel + 1) st.om filepath = .error e := by
  simp only [NewObject] at h
  cases hres : getOriginalFilePath fs (fuel + 1) filepath with
  | timeout => simp [hres] at h
  | crash => simp [hres] at h
  | error e1 => left; simpa [hres] using h
  | ok normalized =>
    simp only [hres] at h
    cases hrd : ReadDeps fs otool (fuel + 1) st.om filepath with
    | timeout => simp [hrd] at h
    | crash => simp [hrd] at h
    | error e1 => right; simpa [hrd] using h
    | ok deps =>
      simp only [hrd] at h
      exact absurd h (visitDeps_ne_error _ _ _ _)

/-! ## The properties -/

/-- C1, at a failing input.  The executable uses `libX`, and the extraction on `libX`
fails (it declares a path that does not exist).  `libX` is visited during the build,
yet for every fuel from 3 on the build returns success, with a graph in which `libX`
is an edge target and not a key: the error of the recursive call (main.go 73) is
dropped. -/
theorem buildGraph_drops_dependency_failure :
    ∀ k : Nat,
      ReadDeps fsBroken otoolBroken (1 + k) omOut "/opt/lib/libX.dylib" =
        .error "no such file or directory" ∧
      "/opt/lib/libX.dylib" ∈
        (buildGraph fsBroken otoolBroken (3 + k) "/app/exe" "/out" "@rpath/").1.visits ∧
      (buildGraph fsBroken otoolBroken (3 + k) "/app/exe" "/out" "@rpath/").2 = .ok () ∧
      keys (buildGraph fsBroken otoolBroken (3 + k) "/app/exe" "/out" "@rpath/").1.om.Deps =
        ["/app/exe", "/opt/lib/libY.dylib"] ∧
      "/opt/lib/libX.dylib" ∈
        edgeTargets (buildGraph fsBroken otoolBroken (3 + k) "/app/exe" "/out" "@rpath/").1.om.Deps := by
  intro k
  rw [buildGraph_fuel_stable fsBroken otoolBroken 3 k _ _ _ (by decide),
    ReadDeps_fuel_stable fsBroken otoolBroken omOut 1 k _ (by decide)]
  decide

/-- C2, at a failing input.  The root executable path `/app/bin/exe` is a symbolic
link to `/app/bin/exe-1.0`.  The build succeeds and keys the root entry by
`/app/bin/exe-1.0`, while `ExecPath` is `/app/bin/exe`; `FixTargets` compares the two
(main.go 165), so for the root entry it takes the staged location `/out/exe-1.0` as
rewrite target and issues the rewrite of the root's reference there. -/
theorem FixTargets_linked_root_target :
    ∀ k : Nat,
      getOriginalFilePath fsLinkedExe (2 + k) "/app/bin/exe" = .ok "/app/bin/exe-1.0" ∧
      (buildGraph fsLinkedExe otoolLinkedExe (2 + k) "/app/bin/exe" "/out" "@rpath/").2 =
        .ok () ∧
      (buildGraph fsLinkedExe otoolLinkedExe (2 + k) "/app/bin/exe" "/out" "@rpath/").1.om.ExecPath
        = "/app/bin/exe" ∧
      keys (buildGraph fsLinkedExe otoolLinkedExe (2 + k) "/app/bin/exe" "/out" "@rpath/").1.om.Deps
        = ["/app/bin/exe-1.0", "/opt/lib/libX.dylib"] ∧
      rewriteTarget fsLinkedExe (1 + k)
          (buildGraph fsLinkedExe otoolLinkedExe (2 + k) "/app/bin/exe" "/out" "@rpath/").1.om
          "/app/bin/exe-1.0" = .ok "/out/exe-1.0" ∧
      (FixTargets fsLinkedExe (1 + k) allSucceed
          (buildGraph fsLinkedExe otoolLinkedExe (2 + k) "/app/bin/exe" "/out" "@rpath/").1.om
          (buildGraph fsLinkedExe otoolLinkedExe (2 + k) "/app/bin/exe" "/out" "@rpath/").1.om.Deps)
        = ({ trace := [Cmd.installNameChange "/opt/lib/libX.dylib" "@rpath/libX.dylib"
                         "/out/exe-1.0"],
             fixed := ["/out/exe-1.0", "/out/libX.dylib"] }, .ok ()) := by
  intro k
  rw [buildGraph_fuel_stable fsLinkedExe otoolLinkedExe 2 k _ _ _ (by decide),
    getOriginalFilePath_fuel_stable fsLinkedExe 2 k _ (by decide),
    rewriteTarget_fuel_stable fsLinkedExe _ 1 k _ (by decide),
    FixTargets_fuel_stable fsLinkedExe allSucceed _ 1 k _ (by decide)]
  decide

/-- C3, at a failing input.  `/opt/lib/libfoo.dylib` is a symbolic link whose target
is the absolute path `/usr/local/Cellar/foo/libfoo.1.dylib`, a regular file that
resolves to itself.  `getOriginalFilePath` joins the absolute target to the directory
of the link (main.go 27), looks at `/opt/lib/usr/local/Cellar/foo/libfoo.1.dylib`,
and fails. -/
theorem getOriginalFilePath_absolute_target :
    ∀ k : Nat,
      fsAbsLink.Lstat "/opt/lib/libfoo.dylib" = .ok .symlink ∧
      fsAbsLink.Readlink "/opt/lib/libfoo.dylib" = .ok "/usr/local/Cellar/foo/libfoo.1.dylib" ∧
      getOriginalFilePath fsAbsLink (1 + k) "/usr/local/Cellar/foo/libfoo.1.dylib" =
        .ok "/usr/local/Cellar/foo/libfoo.1.dylib" ∧
      Join [Dir "/opt/lib/libfoo.dylib", "/usr/local/Cellar/foo/libfoo.1.dylib"] =
        "/opt/lib/usr/local/Cellar/foo/libfoo.1.dylib" ∧
      getOriginalFilePath fsAbsLink (2 + k) "/opt/lib/libfoo.dylib" =
        .error "no such file or directory" := by
  intro k
  rw [getOriginalFilePath_fuel_stable fsAbsLink 1 k _ (by decide),
    getOriginalFilePath_fuel_stable fsAbsLink 2 k _ (by decide)]
  exact ⟨rfl, rfl, by decide, by decide, by decide⟩

/-- C4, at a failing input.  The line `"\t/opt/lib/libY.dylib"` begins with a tab and
has no ` (...)` suffix: the regular expression gives the nil slice, indexing it
(main.go 98) panics, so `ReadDeps` crashes, and with it the build, where the same
output without that line gives one edge. -/
theorem ReadDeps_crashes_on_bare_tab_line :
    ∀ k : Nat,
      FindStringSubmatch "\t/opt/lib/libY.dylib" = [] ∧
      ReadDeps fsBroken (tableOtool [("/app/exe", linesBare)]) (1 + k) omOut "/app/exe" =
        .crash ∧
      ReadDeps fsBroken (tableOtool [("/app/exe", linesBareRemoved)]) (1 + k) omOut "/app/exe" =
        .ok [{ Path := "/opt/lib/libX.dylib", RealPath := "/opt/lib/libX.dylib",
               TargetPath := "/out/libX.dylib", FixPath := "@rpath/libX.dylib" }] ∧
      (buildGraph fsBroken (tableOtool [("/app/exe", linesBare)]) (1 + k) "/app/exe" "/out"
        "@rpath/").2 = .crash := by
  intro k
  rw [ReadDeps_fuel_stable fsBroken _ omOut 1 k _ (by decide),
    ReadDeps_fuel_stable fsBroken _ omOut 1 k _ (by decide),
    buildGraph_fuel_stable fsBroken _ 1 k _ _ _ (by decide)]
  decide

/-- C5.  For an oracle run that yields `lines` without a scanner error, in which every
line that begins with a tab gives a declared path `p` that resolves, to `resolve p`:
with enough fuel `ReadDeps` returns exactly the reference edges, in emission order,
one for each declared path whose canonical path does not start with `/usr/lib` and
ends with `.dylib`, with `TargetPath = Join [TargetFolder, Base c]` and
`FixPath = FixBaseDir ++ Base c`. -/
theorem ReadDeps_eq_extractDepsSpec (fs : FileSystem) (otool : Otool) (om : ObjectMap)
    (filepath : String) (lines : List String) (resolve : String → String)
    (hrun : otool filepath = .ok { lines := lines, scanErr := none })
    (hlines : ∀ line ∈ lines, HasPrefix line "\t" = true →
        ∃ p, (FindStringSubmatch line)[1]? = some p ∧
          ∃ n, getOriginalFilePath fs n p = .ok (resolve p)) :
    ∃ N, ∀ fuel, N ≤ fuel →
      ReadDeps fs otool fuel om filepath =
        .ok (extractDepsSpec resolve om.TargetFolder om.FixBaseDir (declaredPaths lines)) := by
  obtain ⟨N, hN⟩ := exists_common_fuel fs resolve lines hlines
  refine ⟨N, fun fuel hf => ?_⟩
  simp [ReadDeps, hrun, scanLines_eq_spec fs fuel om resolve lines [] (hN fuel hf)]

/-- C5 on the output with one `/usr/lib` entry, one framework entry and one
third-party library: exactly one edge, with target path `/out/libfoo.dylib` and fixed
path `@rpath/libfoo.dylib`. -/
theorem ReadDeps_eq_extractDepsSpec_witness :
    tableOtool [("/app/exe", linesFilter)] "/app/exe" =
      .ok { lines := linesFilter, scanErr := none } ∧
    (∀ line ∈ linesFilter, HasPrefix line "\t" = true →
        ∃ p, (FindStringSubmatch line)[1]? = some p ∧
          ∃ n, getOriginalFilePath fsFilter n p = .ok (id p)) ∧
    (∃ N, ∀ fuel, N ≤ fuel →
      ReadDeps fsFilter (tableOtool [("/app/exe", linesFilter)]) fuel omOut "/app/exe" =
        .ok (extractDepsSpec id "/out" "@rpath/" (declaredPaths linesFilter))) ∧
    extractDepsSpec id "/out" "@rpath/" (declaredPaths linesFilter) =
      [{ Path := "/usr/local/lib/libfoo.dylib", RealPath := "/usr/local/lib/libfoo.dylib",
         TargetPath := "/out/libfoo.dylib", FixPath := "@rpath/libfoo.dylib" }] := by
  have hlines : ∀ line ∈ linesFilter, HasPrefix line "\t" = true →
      ∃ p, (FindStringSubmatch line)[1]? = some p ∧
        ∃ n, getOriginalFilePath fsFilter n p = .ok (id p) := by
    intro line hl htab
    simp only [linesFilter, List.mem_cons, List.mem_singleton, List.not_mem_nil,
      or_false] at hl
    rcases hl with rfl | rfl | rfl | rfl
    · exact absurd htab (by decide)
    · exact ⟨"/usr/lib/libSystem.B.dylib", by decide, 1, by decide⟩
    · exact ⟨"/System/Library/Frameworks/Cocoa.framework/Versions/A/Cocoa", by decide, 1,
        by decide⟩
    · exact ⟨"/usr/local/lib/libfoo.dylib", by decide, 1, by decide⟩
  exact ⟨rfl, hlines,
    ReadDeps_eq_extractDepsSpec fsFilter _ omOut "/app/exe" linesFilter id rfl hlines,
    by decide⟩

/-- C6, at a failing input.  The build returns success for every fuel from 3 on, the
canonical path `/opt/lib/libX.dylib` occurs as an edge target in the graph, and it is
not a key of the graph: its visit failed and the error was dropped (main.go 73). -/
theorem buildGraph_not_closed :
    ∀ k : Nat,
      (buildGraph fsBroken otoolBroken (3 + k) "/app/exe" "/out" "@rpath/").2 = .ok () ∧
      "/opt/lib/libX.dylib" ∈
        edgeTargets (buildGraph fsBroken otoolBroken (3 + k) "/app/exe" "/out" "@rpath/").1.om.Deps ∧
      "/opt/lib/libX.dylib" ∉
        keys (buildGraph fsBroken otoolBroken (3 + k) "/app/exe" "/out" "@rpath/").1.om.Deps ∧
      mapHas (buildGraph fsBroken otoolBroken (3 + k) "/app/exe" "/out" "@rpath/").1.om.Deps
        "/opt/lib/libX.dylib" = false := by
  intro k
  rw [buildGraph_fuel_stable fsBroken otoolBroken 3 k _ _ _ (by decide)]
  decide

/-- Outside the scope of the specification (spec 1: no graph with several libraries
of the same name).  In the graph built for an executable that uses
`/opt/a/libfoo.dylib`, `libbar` and `/opt/b/libfoo.dylib`, with `libbar` using
`/opt/b/libfoo.dylib` too, the run of `CopyToTargets` over the entries succeeds and
issues no copy with source `/opt/b/libfoo.dylib`, its target path `/out/libfoo.dylib`
being taken by `/opt/a/libfoo.dylib`: the staging pass deduplicates by target path,
so the hypothesis on equal target paths in the staging theorem cannot be dropped. -/
theorem CopyToTargets_same_name_out_of_scope :
    (buildGraph fsClash otoolClash 3 "/app/exe" "/out" "@rpath/").2 = .ok () ∧
    keys (buildGraph fsClash otoolClash 3 "/app/exe" "/out" "@rpath/").1.om.Deps =
      ["/app/exe", "/opt/a/libfoo.dylib", "/opt/lib/libbar.dylib", "/opt/b/libfoo.dylib"] ∧
    (∃ d ∈ ((buildGraph fsClash otoolClash 3 "/app/exe" "/out" "@rpath/").1.om.Deps.lookup
        "/app/exe").getD [], d.RealPath = "/opt/b/libfoo.dylib") ∧
    (∃ d ∈ ((buildGraph fsClash otoolClash 3 "/app/exe" "/out" "@rpath/").1.om.Deps.lookup
        "/opt/lib/libbar.dylib").getD [], d.RealPath = "/opt/b/libfoo.dylib") ∧
    (CopyToTargets allSucceed
        (buildGraph fsClash otoolClash 3 "/app/exe" "/out" "@rpath/").1.om.Deps).2 = none ∧
    (CopyToTargets allSucceed
        (buildGraph fsClash otoolClash 3 "/app/exe" "/out" "@rpath/").1.om.Deps).1.trace.countP
      (isCopyFrom "/opt/b/libfoo.dylib") = 0 := by
  decide

/-- C8.  In a successful run of `FixTargets` there is a list of fixed entries, each an
entry of the graph with its rewrite target, such that the rewrite targets of the list
are distinct, the rewrite target of every entry of the graph is among them, and the
commands issued are exactly, for each fixed entry in turn, one
`install_name_tool -change e.Path e.FixPath T` per edge `e` of the entry, in edge
order, `T` being the rewrite target of the entry. -/
theorem FixTargets_rewrites_per_edge (fs : FileSystem) (fuel : Nat) (ext : Exec)
    (om : ObjectMap) (order : List (String × List Dep)) (st : FixState)
    (h : FixTargets fs fuel ext om order = (st, .ok ())) :
    ∃ fixedEntries : List (String × List Dep),
      (∀ x ∈ fixedEntries, ∃ e ∈ order, rewriteTarget fs fuel om e.1 = .ok x.1 ∧ e.2 = x.2) ∧
      (fixedEntries.map Prod.fst).Nodup ∧
      (∀ e ∈ order, ∃ T, rewriteTarget fs fuel om e.1 = .ok T ∧ T ∈ fixedEntries.map Prod.fst) ∧
      st.trace = fixedEntries.flatMap rewritesOf ∧
      st.fixed = fixedEntries.map Prod.fst := by
  obtain ⟨chosen, h1, h2, h3, h4, h5⟩ :=
    fixEntries_ok fs fuel ext om order { trace := [], fixed := [] } st (by simp) h
  simp only [List.nil_append] at h2 h5
  exact ⟨chosen, h1, h2 ▸ h3, fun e he => h2 ▸ h4 e he, h5, h2⟩

/-- C8 on the end-to-end graph: the reference of `E` to `libX` and to `libY` is
rewritten in `E`, that of `libX` to `libY` in the staged copy of `libX`. -/
theorem FixTargets_rewrites_per_edge_witness :
    FixTargets fsGood 1 allSucceed omGood omGood.Deps =
      ({ trace :=
           [Cmd.installNameChange "/usr/local/lib/libX.dylib" "@rpath/libX.dylib" "/app/E",
            Cmd.installNameChange "/usr/local/lib/libY.dylib" "@rpath/libY.dylib" "/app/E",
            Cmd.installNameChange "/usr/local/lib/libY.dylib" "@rpath/libY.dylib"
              "/out/libX.dylib"],
         fixed := ["/app/E", "/out/libX.dylib", "/out/libY.dylib"] }, .ok ()) ∧
    ∃ fixedEntries : List (String × List Dep),
      (∀ x ∈ fixedEntries,
        ∃ e ∈ omGood.Deps, rewriteTarget fsGood 1 omGood e.1 = .ok x.1 ∧ e.2 = x.2) ∧
      (fixedEntries.map Prod.fst).Nodup ∧
      (∀ e ∈ omGood.Deps,
        ∃ T, rewriteTarget fsGood 1 omGood e.1 = .ok T ∧ T ∈ fixedEntries.map Prod.fst) ∧
      [Cmd.installNameChange "/usr/local/lib/libX.dylib" "@rpath/libX.dylib" "/app/E",
       Cmd.installNameChange "/usr/local/lib/libY.dylib" "@rpath/libY.dylib" "/app/E",
       Cmd.installNameChange "/usr/local/lib/libY.dylib" "@rpath/libY.dylib"
         "/out/libX.dylib"] = fixedEntries.flatMap rewritesOf ∧
      ["/app/E", "/out/libX.dylib", "/out/libY.dylib"] = fixedEntries.map Prod.fst := by
  have hrun : FixTargets fsGood 1 allSucceed omGood omGood.Deps =
      ({ trace :=
           [Cmd.installNameChange "/usr/local/lib/libX.dylib" "@rpath/libX.dylib" "/app/E",
            Cmd.installNameChange "/usr/local/lib/libY.dylib" "@rpath/libY.dylib" "/app/E",
            Cmd.installNameChange "/usr/local/lib/libY.dylib" "@rpath/libY.dylib"
              "/out/libX.dylib"],
         fixed := ["/app/E", "/out/libX.dylib", "/out/libY.dylib"] }, .ok ()) := by decide
  exact ⟨hrun,
    FixTargets_rewrites_per_edge fsGood 1 allSucceed omGood omGood.Deps _ hrun⟩

/-- C9.  For a chain `P0, ..., Pn` in which every `Pi` before the last is a symbolic
link whose recorded target, joined to the directory of `Pi`, is the next path, and
whose last path is a regular file, `getOriginalFilePath P0` returns the last path,
for every fuel above `n`; for `n = 0` a regular file is returned unchanged. -/
theorem getOriginalFilePath_chain (fs : FileSystem) :
    ∀ (rest : List String) (P0 : String),
      List.Chain (LinkStep fs) P0 rest →
      fs.Lstat ((P0 :: rest).getLast (List.cons_ne_nil _ _)) = .ok .regular →
      ∀ fuel, rest.length < fuel →
        getOriginalFilePath fs fuel P0 = .ok ((P0 :: rest).getLast (List.cons_ne_nil _ _)) := by
  intro rest
  induction rest with
  | nil =>
    intro P0 _ hreg fuel hf
    obtain ⟨k, rfl⟩ : ∃ k, fuel = k + 1 := ⟨fuel - 1, by simp at hf; omega⟩
    simp only [List.getLast_singleton] at hreg ⊢
    simp [getOriginalFilePath, hreg]
  | cons P1 rest ih =>
    intro P0 hch hreg fuel hf
    obtain ⟨k, rfl⟩ : ∃ k, fuel = k + 1 := ⟨fuel - 1, by simp at hf; omega⟩
    rw [List.chain_cons] at hch
    obtain ⟨⟨hl, t, hrl, hj⟩, hch⟩ := hch
    rw [List.getLast_cons (List.cons_ne_nil _ _)] at hreg ⊢
    simp only [getOriginalFilePath, hl, hrl, hj]
    exact ih P1 hch hreg k (by simp at hf; omega)

/-- C9 on the chain `A -> B -> C -> D` with `D` a regular file: `resolve(A) = D`. -/
theorem getOriginalFilePath_chain_witness :
    List.Chain (LinkStep fsChain) "/w/A" ["/w/B", "/w/sub/C", "/w/D"] ∧
    fsChain.Lstat "/w/D" = .ok .regular ∧
    getOriginalFilePath fsChain 4 "/w/A" = .ok "/w/D" := by
  have hch : List.Chain (LinkStep fsChain) "/w/A" ["/w/B", "/w/sub/C", "/w/D"] :=
    List.Chain.cons ⟨rfl, "B", rfl, by decide⟩
      (List.Chain.cons ⟨rfl, "sub/C", rfl, by decide⟩
        (List.Chain.cons ⟨rfl, "../D", rfl, by decide⟩ List.Chain.nil))
  exact ⟨hch, rfl,
    getOriginalFilePath_chain fsChain ["/w/B", "/w/sub/C", "/w/D"] "/w/A" hch rfl 4
      (by decide)⟩

/-- C10, at a failing input.  The file system has three regular files and no link;
the executable uses `libX` and `libY`, `libY` uses `libX`, and the extraction on
`libX` fails.  For every fuel from 3 on the build returns, and `NewObject` has been
called four times, twice on the canonical path `/opt/lib/libX.dylib`: a visit that
fails adds no key, and its error is dropped (main.go 73), so the next edge to `libX`
visits it again. -/
theorem buildGraph_revisits_failed_dependency :
    ∀ k : Nat,
      (buildGraph fsBroken otoolBroken (3 + k) "/app/exe" "/out" "@rpath/").2 = .ok () ∧
      (buildGraph fsBroken otoolBroken (3 + k) "/app/exe" "/out" "@rpath/").1.visits =
        ["/app/exe", "/opt/lib/libX.dylib", "/opt/lib/libY.dylib", "/opt/lib/libX.dylib"] ∧
      (buildGraph fsBroken otoolBroken (3 + k) "/app/exe" "/out" "@rpath/").1.visits.count
        "/opt/lib/libX.dylib" = 2 ∧
      (buildGraph fsBroken otoolBroken (3 + k) "/app/exe" "/out" "@rpath/").1.visits.dedup.length
        = 3 ∧
      (buildGraph fsBroken otoolBroken (3 + k) "/app/exe" "/out" "@rpath/").1.visits.length
        = 4 := by
  intro k
  rw [buildGraph_fuel_stable fsBroken otoolBroken 3 k _ _ _ (by decide)]
  decide

end Dylibbundler
